import Mathlib

/-!
Shallow embedding of the plan/execute/verify core of the playlist-reorder
browser extension (content.js and content_script.js).

Conventions used throughout:
* A scraped video is a (title, duration-in-seconds) pair; durations are the
  non-negative integers produced by the duration parsers.
* The live playlist DOM is represented by the list of the titles of its
  rendered entries, in display order.
* The host page action "Move to top" on the entry with a given title moves
  that entry to the front of the list, leaving the relative order of the
  other entries unchanged.
* Asynchronous storage writes are modelled as pure updates of a
  key-to-record map; chrome.storage.local.set with key reorder_status
  becomes a write of that one key.
-/

/-- Video record scraped from one playlist entry: title text and parsed
duration in seconds (content.js, generateReorderPlan map step). -/
structure Video where
  title : String
  duration : Nat
deriving DecidableEq, Repr

/-! ### Planner (content.js, generateReorderPlan lines 82-98) -/

/-- Comparator order used by videoData.sort for order asc: by duration,
non-decreasing. -/
def durLE (a b : Video) : Prop := a.duration ≤ b.duration

/-- Comparator order used by videoData.sort for the non-asc branch: by
duration, non-increasing. -/
def durGE (a b : Video) : Prop := b.duration ≤ a.duration

instance : DecidableRel durLE := fun a b =>
  inferInstanceAs (Decidable (a.duration ≤ b.duration))

instance : DecidableRel durGE := fun a b =>
  inferInstanceAs (Decidable (b.duration ≤ a.duration))

instance : IsTotal Video durLE := ⟨fun a b => Nat.le_total a.duration b.duration⟩

instance : IsTotal Video durGE := ⟨fun a b => Nat.le_total b.duration a.duration⟩

instance : IsTrans Video durLE := ⟨fun _ _ _ h1 h2 => Nat.le_trans h1 h2⟩

instance : IsTrans Video durGE := ⟨fun _ _ _ h1 h2 => Nat.le_trans h2 h1⟩

/-- Max-length filter of generateReorderPlan: applied only when a positive
maxLength is set (content.js lines 83-85). -/
def applyMaxFilter (maxLength : Nat) (videos : List Video) : List Video :=
  if maxLength > 0 then videos.filter (fun v => v.duration ≤ maxLength) else videos

/-- Sorting step of generateReorderPlan (content.js lines 91-93): stable
comparison sort under the duration comparator; ascending when order is
asc, descending otherwise. -/
def sortVideosByDuration (order : String) (videos : List Video) : List Video :=
  if order = "asc" then List.insertionSort durLE videos
  else List.insertionSort durGE videos

/-- Planner of content.js (generateReorderPlan body after scraping): errors
when no videos were scraped or none pass the filter, otherwise produces the
filtered, duration-sorted plan. -/
def generateReorderPlan (order : String) (maxLength : Nat) (videos : List Video) :
    Except String (List Video) :=
  if videos.length = 0 then
    Except.error "No videos found. Are you on a playlist page?"
  else
    let filtered := applyMaxFilter maxLength videos
    if filtered.length = 0 then
      Except.error "No videos match the specified criteria."
    else
      Except.ok (sortVideosByDuration order filtered)

/-! ### Executor (content.js, executeReorder lines 175-257) -/

/-- Effect of the host page "Move to top" action on the title list: the
(first) entry with title t moves to the front; when no such entry exists
the click path fails and the list is unchanged. -/
def moveToTop (t : String) (l : List String) : List String :=
  if t ∈ l then t :: l.erase t else l

/-- Loop body chain of executeReorder: the first component of the result is
the final DOM title list, the second is the trace of titles passed to the
Move to top action, in invocation order.  The argument list is the plan in
the order the loop visits it. -/
def execReorderAux : List String → List String → List String × List String
  | [], dom => (dom, [])
  | t :: ts, dom =>
      let r := execReorderAux ts (moveToTop t dom)
      (r.1, t :: r.2)

/-- Executor of content.js (executeReorder loop, lines 195-228): iterates
over the plan backwards (for i = plan.length - 1 downto 0), invoking Move
to top on the title of plan entry i. -/
def executeReorder (plan dom : List String) : List String × List String :=
  execReorderAux plan.reverse dom

/-! ### Verifier (content.js, verifyOrder lines 259-303) -/

/-- Error string built at the first mismatch of verifyOrder (content.js
line 285), with the 1-based position and the two titles. -/
def mismatchMsg (pos : Nat) (expected found : String) : String :=
  "Mismatch at position " ++ toString pos ++ ". Expected: \"" ++ expected ++
    "\", but found: \"" ++ found ++ "\""

/-- Comparison loop of verifyOrder (content.js lines 283-299): walks the
plan and the live titles in lockstep, keeping the 0-based index i, and
stops at the first differing pair with the mismatch message.  The JS loop
reads currentOrderTitles[i] = live[i] for i below the plan length, so
slicing the live list first is the same as indexing it directly. -/
def verifyLoop : List String → List String → Nat → Except String Unit
  | [], _, _ => Except.ok ()
  | _ :: _, [], _ => Except.ok ()
  | p :: ps, c :: cs, i =>
      if c = p then verifyLoop ps cs (i + 1)
      else Except.error (mismatchMsg (i + 1) p c)

/-- Verifier of content.js (verifyOrder): when the page holds fewer videos
than the plan it fails with the not-all-found message, otherwise it runs
the pairwise comparison loop; Except.ok models the JS return value true. -/
def verifyOrder (plan live : List String) : Except String Unit :=
  if live.length < plan.length then
    Except.error "Verification failed: Not all videos were found on the page after reordering."
  else verifyLoop plan live 0

/-! ### Scraper scrolling (content.js, scrollToBottom lines 14-49) -/

/-- Result of the scrolling phase: either the interval stopped after three
consecutive no-change checks (stable, with the tick of the last check), or
the 30 second failsafe timeout cleared the interval. -/
inductive ScrollOutcome where
  | stable : Nat → ScrollOutcome
  | timedOut : ScrollOutcome
deriving DecidableEq, Repr

/-- Interval handler of scrollToBottom, one call per second: h t is the
page scrollHeight observed at tick t; lastHeight starts at 0 and
consecutiveStops at 0; fuel is the number of ticks left before the 30
second failsafe timeout fires. -/
def scrollAux (h : Nat → Nat) : Nat → Nat → Nat → Nat → ScrollOutcome
  | _, _, _, 0 => ScrollOutcome.timedOut
  | last, stops, t, fuel + 1 =>
      let cur := h t
      if cur = last then
        if stops + 1 ≥ 3 then ScrollOutcome.stable t
        else scrollAux h last (stops + 1) (t + 1) fuel
      else scrollAux h cur 0 (t + 1) fuel

/-- Scrolling phase of content.js scrollToBottom: checks every second,
stops after three consecutive checks with unchanged height, with a 30 tick
failsafe (the 30000 ms timeout over the 1000 ms interval). -/
def scrollToBottomModel (h : Nat → Nat) : ScrollOutcome :=
  scrollAux h 0 0 0 30

/-- Height sequence that grows at every tick, driving the scroll loop into
its failsafe timeout. -/
def growingHeight : Nat → Nat := fun t => t + 1

/-- Height sequence that never changes; the scroll loop stops stably on it
after three checks. -/
def constHeight : Nat → Nat := fun _ => 7

/-! ### Shared persisted status record (content.js lines 5-12) -/

/-- Record stored under the reorder_status key.  updateStatus always fills
every field; the module-load initialization write sets only state, so the
other fields are optional here, with none meaning absent from the stored
JS object. -/
structure StatusRec where
  state : String
  processed : Option Nat := none
  total : Option Nat := none
  message : Option String := none
  plan : Option (List Video) := none
  timestamp : Option Nat := none
deriving DecidableEq, Repr

/-- Persisted chrome.storage.local contents, as a map from key to the
status record stored there. -/
def StatusStore : Type := String → Option StatusRec

/-- Write of one key into local storage (chrome.storage.local.set with a
single-key object). -/
def storeSet (st : StatusStore) (k : String) (v : StatusRec) : StatusStore :=
  fun key => if key = k then some v else st key

/-- Record written by the module-load initialization (content.js line 7):
only the state field, set to idle. -/
def idleInitRecord : StatusRec := { state := "idle" }

/-- Module-load initialization of content.js (line 7): unconditionally
overwrites the reorder_status key with the idle record, whatever the
previously persisted store held. -/
def moduleInit (st : StatusStore) : StatusStore :=
  storeSet st "reorder_status" idleInitRecord

/-- Status write performed by updateStatus (content.js lines 9-12): the
single key reorder_status paired with a record carrying every field,
including the Date.now() timestamp passed in as now. -/
def updateStatusWrite (state : String) (processed total : Nat) (message : String)
    (plan : List Video) (now : Nat) : String × StatusRec :=
  ("reorder_status",
   { state := state, processed := some processed, total := some total,
     message := some message, plan := some plan, timestamp := some now })

/-- Field completeness predicate of claim C7: the stored record carries
processed, total, message and plan (state is always present). -/
def hasAllClaimFields (r : StatusRec) : Bool :=
  r.processed.isSome && r.total.isSome && r.message.isSome && r.plan.isSome

/-! ### Message interface (content.js, onMessage listener lines 305-325) -/

/-- Globals of content.js relevant to the generatePlan message: the
isReordering flag and the persisted status store its async work writes
into. -/
structure Glob where
  isReordering : Bool
  store : StatusStore

/-- Responses the listener can send back for a generatePlan request. -/
inductive MsgResponse where
  | errorResp : String → MsgResponse
  | started : MsgResponse
deriving DecidableEq, Repr

/-- generatePlan branch of the onMessage listener (content.js lines
306-312): when an operation is in progress the request is rejected with an
error response and nothing else happens; otherwise generateReorderPlan is
started, which synchronously sets isReordering and issues its first
gathering status write.  The Bool result tells whether a plan generation
was started. -/
def onGeneratePlanMsg (g : Glob) (now : Nat) : Glob × MsgResponse × Bool :=
  if g.isReordering then
    (g, MsgResponse.errorResp "An operation is already in progress.", false)
  else
    ({ isReordering := true,
       store := storeSet g.store "reorder_status"
         (updateStatusWrite "gathering" 0 0 "Scrolling to load all videos..." [] now).2 },
     MsgResponse.started, true)

/-- Empty persisted store, used to instantiate the message-interface
theorems at a concrete input. -/
def emptyStore : StatusStore := fun _ => none

/-! ### Cancellation machine (content.js, executeReorder and the
cancelReorder listener branch, lines 195-228 and 316-324)

executeReorder runs on the single JS event loop; the cancelReorder message
handler can only run at the await points of the loop body.  Each loop
iteration is therefore split at its awaits into segments: check (the
isCancelled test at the top of the iteration, plus the synchronous element
lookup and the menu-button click), move (the click on the Move to top menu
entry, which is the actual move invocation, separated from check by the
menu-open await), wait (waitForMove), and post (the end-of-iteration
updateStatus write).  After the last iteration the fin segment models the
code after the loop: it returns immediately when cancelled and otherwise
runs the verification, abstracted here as reaching the complete state. -/

/-- Segment of the executeReorder loop body between two await points. -/
inductive Seg where
  | check : Seg
  | move : String → Seg
  | wait : Seg
  | post : Seg
  | fin : Seg
deriving DecidableEq, Repr

/-- Machine state: remaining executor segments, the isCancelled flag, the
state field of the persisted status record, the DOM title list, and the
log of Move to top invocations performed so far. -/
structure MState where
  prog : List Seg
  cancelled : Bool
  stState : String
  dom : List String
  moves : List String
deriving DecidableEq, Repr

/-- Segments of one loop iteration that moves the video titled t. -/
def iterBlock (t : String) : List Seg :=
  [Seg.check, Seg.move t, Seg.wait, Seg.post]

/-- Whole segment program of executeReorder for a plan: the loop visits the
plan backwards, then the after-loop code runs. -/
def execProg (plan : List String) : List Seg :=
  (plan.reverse.map iterBlock).flatten ++ [Seg.fin]

/-- State at the start of executeReorder, after its initial
updateStatus reordering write. -/
def initMState (plan dom : List String) : MState :=
  { prog := execProg plan, cancelled := false, stState := "reordering",
    dom := dom, moves := [] }

/-- Run the next executor segment.  check with the flag set writes the idle
status and breaks out of the loop (dropping the rest of the program, which
the return after the loop skips); move performs the Move to top click and
logs it; post writes the reordering progress status; fin returns silently
when cancelled and otherwise completes. -/
def stepSeg (s : MState) : MState :=
  match s.prog with
  | [] => s
  | Seg.check :: rest =>
      if s.cancelled then { s with stState := "idle", prog := [] }
      else { s with prog := rest }
  | Seg.move t :: rest =>
      { s with dom := moveToTop t s.dom, moves := s.moves ++ [t], prog := rest }
  | Seg.wait :: rest => { s with prog := rest }
  | Seg.post :: rest => { s with stState := "reordering", prog := rest }
  | Seg.fin :: _ =>
      if s.cancelled then { s with prog := [] }
      else { s with stState := "complete", prog := [] }

/-- cancelReorder listener branch (content.js lines 316-324): while the
executor is still running it sets isCancelled and writes the idle status;
once the executor has finished, isReordering is false and the branch does
nothing. -/
def cancelStep (s : MState) : MState :=
  if s.prog.isEmpty then s
  else { s with cancelled := true, stState := "idle" }

/-- Event interleaved on the JS event loop: one executor segment, or one
cancelReorder message. -/
inductive Ev where
  | exec : Ev
  | cancel : Ev
deriving DecidableEq, Repr

/-- Apply one event to the machine state. -/
def runEv (s : MState) : Ev → MState
  | Ev.exec => stepSeg s
  | Ev.cancel => cancelStep s

/-- Run a sequence of interleaved events. -/
def runEvents (s : MState) (evs : List Ev) : MState :=
  evs.foldl runEv s

/-- Number of move segments in the program before the next cancellation
observation point (a check segment or the fin segment). -/
def movesBeforeCheck : List Seg → Nat
  | [] => 0
  | Seg.check :: _ => 0
  | Seg.fin :: _ => 0
  | Seg.move _ :: rest => movesBeforeCheck rest + 1
  | Seg.wait :: rest => movesBeforeCheck rest
  | Seg.post :: rest => movesBeforeCheck rest

/-! ### Duration parsing and formatting (content.js line 78,
content_script.js parseTime lines 19-34 and formatTime lines 41-56)

Both parsers first split the colon-separated time string and convert each
field with the JS Number coercion; a time string of numeric fields is
therefore represented here by the list of its numeric field values, and
the two parsers are compared over that list. -/

/-- Duration fold of content.js line 78:
durationText.split(sep).reduce(60 * acc + part, 0), over the numeric field
values. -/
def foldDurationParts (parts : List Nat) : Nat :=
  parts.foldl (fun acc t => 60 * acc + t) 0

/-- Case-based parseTime of content_script.js lines 19-34 over the numeric
field values: H:MM:SS, MM:SS or SS, and 0 for any other number of fields
(seconds stays at its initial 0 there). -/
def parseTimeParts (parts : List Nat) : Nat :=
  match parts with
  | [h, m, s] => h * 3600 + m * 60 + s
  | [m, s] => m * 60 + s
  | [s] => s
  | _ => 0

/-- formatTime of content_script.js lines 41-56 on a non-negative number of
seconds, as the numeric values of the colon-separated fields it emits:
H:MM:SS when a whole hour is present, M:SS otherwise.  The two-digit left
zero padding of the emitted fields does not change their numeric value, so
it is invisible at this level. -/
def formatTimeParts (totalSeconds : Nat) : List Nat :=
  let hours := totalSeconds / 3600
  let minutes := totalSeconds % 3600 / 60
  let seconds := totalSeconds % 60
  if hours > 0 then [hours, minutes, seconds] else [minutes, seconds]

/-! ## Lemmas about the executor fold -/

/-- Membership in the DOM list is preserved by a Move to top action. -/
theorem mem_moveToTop {a t : String} {l : List String} (h : a ∈ l) : a ∈ moveToTop t l := by
  unfold moveToTop
  split
  · by_cases hat : a = t
    · simp [hat]
    · exact List.mem_cons_of_mem _ ((List.mem_erase_of_ne hat).mpr h)
  · exact h

/-- Membership in the DOM list is preserved by any sequence of Move to top
actions. -/
theorem mem_foldr_moveToTop {a : String} (plan : List String) {l : List String}
    (h : a ∈ l) : a ∈ plan.foldr moveToTop l := by
  induction plan with
  | nil => exact h
  | cons p ps ih => exact mem_moveToTop ih

/-- Moving the plan titles to the top, last first, leaves the plan as a
prefix of the DOM list, provided the plan titles are distinct and all
present. -/
theorem foldr_moveToTop_eq (plan : List String) (l : List String)
    (hnd : plan.Nodup) (hmem : ∀ t ∈ plan, t ∈ l) :
    ∃ rest, plan.foldr moveToTop l = plan ++ rest := by
  induction plan with
  | nil => exact ⟨l, rfl⟩
  | cons p ps ih =>
      obtain ⟨hp, hps⟩ := List.nodup_cons.mp hnd
      obtain ⟨rest, hrest⟩ := ih hps (fun t ht => hmem t (List.mem_cons_of_mem _ ht))
      have hpmem : p ∈ ps.foldr moveToTop l :=
        mem_foldr_moveToTop ps (hmem p (List.mem_cons_self p ps))
      refine ⟨rest.erase p, ?_⟩
      rw [List.foldr_cons, hrest]
      rw [hrest] at hpmem
      unfold moveToTop
      rw [if_pos hpmem, List.erase_append_right _ hp]
      rfl

/-- Closed form of the executor loop: the final DOM is the right fold of
Move to top over the loop order, and the trace lists the loop order. -/
theorem execReorderAux_eq (ts : List String) (dom : List String) :
    execReorderAux ts dom = (ts.foldl (fun d t => moveToTop t d) dom, ts) := by
  induction ts generalizing dom with
  | nil => rfl
  | cons t ts ih => simp [execReorderAux, ih]

/-- The executor moves the reversed plan in order and folds Move to top
over the plan. -/
theorem executeReorder_eq (plan dom : List String) :
    executeReorder plan dom = (plan.foldr moveToTop dom, plan.reverse) := by
  unfold executeReorder
  rw [execReorderAux_eq, List.foldl_reverse]

/-! ## C1: executor replays the plan -/

/-- C1 (amended with distinct plan titles): for a distinct-titled DOM list
and a plan of distinct titles all present in it, executeReorder invokes
Move to top exactly once per plan item, iterating over the plan in reverse
(the trace is the reversed plan), and the first plan-length entries of the
resulting DOM equal the plan. -/
theorem c1_executeReorder_matches_plan (plan dom : List String)
    (hnd : plan.Nodup) (hmem : ∀ t ∈ plan, t ∈ dom) :
    (executeReorder plan dom).2 = plan.reverse ∧
    ((executeReorder plan dom).1).take plan.length = plan := by
  rw [executeReorder_eq]
  refine ⟨rfl, ?_⟩
  obtain ⟨rest, hrest⟩ := foldr_moveToTop_eq plan dom hnd hmem
  simp only [hrest]
  exact List.take_left plan rest

/-- C1 witness: concrete run of the amended theorem on the two-item plan
b, a over the DOM a, b, c. -/
theorem c1_executeReorder_matches_plan_witness :
    (executeReorder ["b", "a"] ["a", "b", "c"]).2 = (["b", "a"] : List String).reverse ∧
    ((executeReorder ["b", "a"] ["a", "b", "c"]).1).take 2 = ["b", "a"] :=
  c1_executeReorder_matches_plan ["b", "a"] ["a", "b", "c"] (by decide) (by decide)

/-- C1 counterexample: the claim quantifies over every plan whose titles
occur in the list; with the duplicated plan a, a over the distinct-titled
DOM a, b, every plan title occurs in the list, yet the first two entries
of the final DOM are not the plan. -/
theorem c1_counterexample :
    (["a", "b"] : List String).Nodup ∧ ("a" : String) ∈ ["a", "b"] ∧
    ((executeReorder ["a", "a"] ["a", "b"]).1).take 2 ≠ ["a", "a"] := by
  decide

/-! ## C2: planner output -/

/-- Sorting step is a permutation of its input. -/
theorem sortVideosByDuration_perm (order : String) (videos : List Video) :
    (sortVideosByDuration order videos).Perm videos := by
  unfold sortVideosByDuration
  split
  · exact List.perm_insertionSort durLE videos
  · exact List.perm_insertionSort durGE videos

/-- C2: whenever the planner produces a plan, the plan consists of exactly
the input videos passing the optional max-duration filter, in
non-decreasing duration order for asc and non-increasing duration order
otherwise (in particular for desc). -/
theorem c2_generateReorderPlan_spec (order : String) (maxLength : Nat)
    (videos plan : List Video)
    (h : generateReorderPlan order maxLength videos = Except.ok plan) :
    plan.Perm (applyMaxFilter maxLength videos) ∧
    (order = "asc" → plan.Sorted durLE) ∧
    (order ≠ "asc" → plan.Sorted durGE) := by
  unfold generateReorderPlan at h
  split at h
  · exact absurd h (by simp)
  · simp only at h
    split at h
    · exact absurd h (by simp)
    · rw [Except.ok.injEq] at h
      subst h
      refine ⟨sortVideosByDuration_perm order _, ?_, ?_⟩
      · intro horder
        unfold sortVideosByDuration
        rw [if_pos horder]
        exact List.sorted_insertionSort durLE _
      · intro horder
        unfold sortVideosByDuration
        rw [if_neg horder]
        exact List.sorted_insertionSort durGE _

/-- C2 witness: concrete ascending run of the planner with no filter. -/
theorem c2_generateReorderPlan_spec_witness :
    ([Video.mk "b" 10, Video.mk "a" 30] : List Video).Perm
      (applyMaxFilter 0 [Video.mk "a" 30, Video.mk "b" 10]) ∧
    (("asc" : String) = "asc" →
      ([Video.mk "b" 10, Video.mk "a" 30] : List Video).Sorted durLE) ∧
    (("asc" : String) ≠ "asc" →
      ([Video.mk "b" 10, Video.mk "a" 30] : List Video).Sorted durGE) :=
  c2_generateReorderPlan_spec "asc" 0 [Video.mk "a" 30, Video.mk "b" 10]
    [Video.mk "b" 10, Video.mk "a" 30] (by rfl)

/-! ## C3: verifier -/

/-- The comparison loop accepts exactly when the plan titles match the live
titles pointwise over the plan length. -/
theorem verifyLoop_ok_iff : ∀ (ps cs : List String) (i : Nat), ps.length ≤ cs.length →
    (verifyLoop ps cs i = Except.ok () ↔ ∀ k, k < ps.length → ps[k]? = cs[k]?) := by
  intro ps
  induction ps with
  | nil =>
      intro cs i h
      simp [verifyLoop]
  | cons p ps ih =>
      intro cs i h
      cases cs with
      | nil => simp at h
      | cons c cs =>
          simp only [verifyLoop]
          by_cases hpc : c = p
          · subst hpc
            rw [if_pos rfl, ih cs (i + 1) (by simpa using h)]
            constructor
            · intro hk k hklt
              cases k with
              | zero => simp
              | succ k => simpa using hk k (by simpa using hklt)
            · intro hk k hklt
              simpa using hk (k + 1) (by simpa using hklt)
          · rw [if_neg hpc]
            constructor
            · intro habs
              simp at habs
            · intro hk
              have h0 := hk 0 (by simp)
              simp only [List.getElem?_cons_zero, Option.some.injEq] at h0
              exact absurd h0.symm hpc

/-- The comparison loop stops at the first mismatch with the mismatch
message carrying the 1-based position, offset by the starting index. -/
theorem verifyLoop_error : ∀ (ps cs : List String) (i j : Nat), ps.length ≤ cs.length →
    j < ps.length → ps[j]? ≠ cs[j]? → (∀ k, k < j → ps[k]? = cs[k]?) →
    verifyLoop ps cs i =
      Except.error (mismatchMsg (i + j + 1) (ps.getD j "") (cs.getD j "")) := by
  intro ps
  induction ps with
  | nil =>
      intro cs i j hlen hj
      simp at hj
  | cons p ps ih =>
      intro cs i j hlen hj hne hpre
      cases cs with
      | nil => simp at hlen
      | cons c cs =>
          simp only [verifyLoop]
          cases j with
          | zero =>
              have hcp : ¬ (c = p) := by
                intro hcp
                exact hne (by simp [hcp])
              rw [if_neg hcp]
              simp [List.getD]
          | succ j =>
              have h0 := hpre 0 (Nat.succ_pos j)
              simp only [List.getElem?_cons_zero, Option.some.injEq] at h0
              rw [if_pos h0.symm]
              have hrec := ih cs (i + 1) j (by simpa using hlen) (by simpa using hj)
                (by simpa using hne) (fun k hk => by simpa using hpre (k + 1) (by omega))
              have harith : i + 1 + j + 1 = i + (j + 1) + 1 := by omega
              rw [harith] at hrec
              simpa [List.getD] using hrec

/-- C3: the verifier reports the short error when the live list is shorter
than the plan; otherwise it returns ok exactly when every position below
the plan length matches, and at the first mismatch position j it returns
the mismatch message reporting position j + 1 with the two titles. -/
theorem c3_verifyOrder_spec (plan live : List String) :
    (live.length < plan.length →
      verifyOrder plan live =
        Except.error
          "Verification failed: Not all videos were found on the page after reordering.") ∧
    (plan.length ≤ live.length →
      ((verifyOrder plan live = Except.ok () ↔
          ∀ k, k < plan.length → plan[k]? = live[k]?) ∧
       (∀ j, j < plan.length → plan[j]? ≠ live[j]? →
          (∀ k, k < j → plan[k]? = live[k]?) →
          verifyOrder plan live =
            Except.error (mismatchMsg (j + 1) (plan.getD j "") (live.getD j ""))))) := by
  constructor
  · intro h
    unfold verifyOrder
    rw [if_pos h]
  · intro h
    have hnl : ¬ live.length < plan.length := by omega
    constructor
    · unfold verifyOrder
      rw [if_neg hnl]
      exact verifyLoop_ok_iff plan live 0 h
    · intro j hj hne hpre
      unfold verifyOrder
      rw [if_neg hnl]
      simpa using verifyLoop_error plan live 0 j h hj hne hpre

/-- C3 witness: concrete mismatch at position 2 for the plan a, b against
the live order a, c. -/
theorem c3_verifyOrder_spec_witness :
    verifyOrder ["a", "b"] ["a", "c"] = Except.error (mismatchMsg 2 "b" "c") := by
  have h := (c3_verifyOrder_spec ["a", "b"] ["a", "c"]).2 (by decide)
  have hj := h.2 1 (by decide) (by decide) ?_
  · simpa using hj
  · intro k hk
    have : k = 0 := by omega
    subst this
    rfl

/-! ## C5: scraper scrolling -/

/-- Invariant proof for the scroll loop: a stable stop can only happen
after three consecutive checks observed the same height. -/
theorem scrollAux_stable_inv (h : Nat → Nat) :
    ∀ (fuel last stops t t' : Nat),
      (stops = 0 ∨ (stops = 1 ∧ 1 ≤ t ∧ h (t - 1) = last) ∨
        (stops = 2 ∧ 2 ≤ t ∧ h (t - 1) = last ∧ h (t - 2) = last)) →
      scrollAux h last stops t fuel = ScrollOutcome.stable t' →
      2 ≤ t' ∧ h t' = h (t' - 1) ∧ h (t' - 1) = h (t' - 2) := by
  intro fuel
  induction fuel with
  | zero =>
      intro last stops t t' hinv heq
      simp [scrollAux] at heq
  | succ fuel ih =>
      intro last stops t t' hinv heq
      simp only [scrollAux] at heq
      by_cases hcur : h t = last
      · rw [if_pos hcur] at heq
        by_cases hstop : stops + 1 ≥ 3
        · rw [if_pos hstop] at heq
          cases heq
          rcases hinv with h0 | ⟨h1, _⟩ | ⟨h2, ht, ha, hb⟩
          · omega
          · omega
          · exact ⟨ht, by rw [hcur, ha], by rw [ha, hb]⟩
        · rw [if_neg hstop] at heq
          apply ih last (stops + 1) (t + 1) t' ?_ heq
          rcases hinv with h0 | ⟨h1, ht1, ha⟩ | ⟨h2, _, _, _⟩
          · right; left
            refine ⟨by omega, by omega, ?_⟩
            simpa using hcur
          · right; right
            refine ⟨by omega, by omega, by simpa using hcur, ?_⟩
            have ht2 : t + 1 - 2 = t - 1 := by omega
            rw [ht2]
            exact ha
          · omega
      · rw [if_neg hcur] at heq
        exact ih (h t) 0 (t + 1) t' (Or.inl rfl) heq

/-- C5 (amended): the scrolling phase ends in the stable way only after
three consecutive one-second checks observed an unchanged page height;
otherwise it can only end through the 30 second failsafe timeout. -/
theorem c5_scroll_stable_only_when_settled (h : Nat → Nat) (t : Nat)
    (heq : scrollToBottomModel h = ScrollOutcome.stable t) :
    2 ≤ t ∧ h t = h (t - 1) ∧ h (t - 1) = h (t - 2) :=
  scrollAux_stable_inv h 30 0 0 0 t (Or.inl rfl) heq

/-- C5 witness: on a constant height sequence the loop stops stably at
tick 3, with the last three checks all equal. -/
theorem c5_scroll_stable_only_when_settled_witness :
    2 ≤ 3 ∧ constHeight 3 = constHeight 2 ∧ constHeight 2 = constHeight 1 :=
  c5_scroll_stable_only_when_settled constHeight 3 (by decide)

/-- C5 counterexample: on a height sequence that grows at every single
check, the scrolling phase still ends, through the failsafe timeout, so
it is not true that it never ends while checks observe growth. -/
theorem c5_counterexample :
    scrollToBottomModel growingHeight = ScrollOutcome.timedOut ∧
    ((List.range 40).all fun t => growingHeight (t + 1) != growingHeight t) = true := by
  decide

/-! ## C6: initialization resets the status -/

/-- C6: whatever record any previous session persisted under any key, the
module-load write leaves the reorder_status key holding the record whose
state is idle. -/
theorem c6_moduleInit_resets_idle (st : StatusStore) :
    moduleInit st "reorder_status" = some idleInitRecord ∧
    idleInitRecord.state = "idle" :=
  ⟨by simp [moduleInit, storeSet], rfl⟩

/-! ## C7: status writes -/

/-- C7 (amended): every updateStatus write targets the single key
reorder_status and its record carries all of processed, total, message and
plan (and a state, structurally). -/
theorem c7_updateStatus_writes_complete_record (state : String)
    (processed total : Nat) (message : String) (plan : List Video) (now : Nat) :
    (updateStatusWrite state processed total message plan now).1 = "reorder_status" ∧
    hasAllClaimFields (updateStatusWrite state processed total message plan now).2 = true :=
  ⟨rfl, rfl⟩

/-- C7 counterexample: the module-load status write (content.js line 7) is
a status write by the core whose record omits processed, total, message
and plan, so not every status write carries all fields. -/
theorem c7_counterexample :
    moduleInit emptyStore "reorder_status" = some idleInitRecord ∧
    hasAllClaimFields idleInitRecord = false := by
  constructor
  · simp [moduleInit, storeSet, emptyStore]
  · rfl

/-! ## C8 and C9: duration parsing -/

/-- C8: over one, two or three numeric colon-separated fields, the fold
based parser of content.js computes the same seconds as the case based
parseTime of content_script.js. -/
theorem c8_duration_parsers_agree (parts : List Nat)
    (h1 : 1 ≤ parts.length) (h2 : parts.length ≤ 3) :
    foldDurationParts parts = parseTimeParts parts := by
  match parts with
  | [] => simp at h1
  | [a] => simp [foldDurationParts, parseTimeParts]
  | [a, b] =>
      simp [foldDurationParts, parseTimeParts]
      ring
  | [a, b, c] =>
      simp [foldDurationParts, parseTimeParts]
      ring
  | _ :: _ :: _ :: _ :: _ =>
      simp only [List.length_cons] at h2
      omega

/-- C8 witness: both parsers give 3723 seconds on the fields 1, 2, 3. -/
theorem c8_duration_parsers_agree_witness :
    foldDurationParts [1, 2, 3] = parseTimeParts [1, 2, 3] :=
  c8_duration_parsers_agree [1, 2, 3] (by decide) (by decide)

/-- C9: for every non-negative integer number of seconds, parsing the
formatted time gives back the number. -/
theorem c9_parse_format_roundtrip (n : Nat) :
    parseTimeParts (formatTimeParts n) = n := by
  simp only [formatTimeParts]
  split
  · simp only [parseTimeParts]
    omega
  · simp only [parseTimeParts]
    omega

/-! ## C10: message interface mutual exclusion -/

/-- C10: a generatePlan request arriving while an operation is in progress
is rejected with the in-progress error response, starts no plan
generation, and leaves the globals, including the persisted status store,
unchanged. -/
theorem c10_generatePlan_rejected_when_busy (g : Glob) (now : Nat)
    (h : g.isReordering = true) :
    onGeneratePlanMsg g now =
      (g, MsgResponse.errorResp "An operation is already in progress.", false) := by
  unfold onGeneratePlanMsg
  simp [h]

/-- C10 witness: rejection on the concrete busy global state over the
empty store. -/
theorem c10_generatePlan_rejected_when_busy_witness :
    onGeneratePlanMsg ⟨true, emptyStore⟩ 0 =
      (⟨true, emptyStore⟩, MsgResponse.errorResp "An operation is already in progress.", false) :=
  c10_generatePlan_rejected_when_busy ⟨true, emptyStore⟩ 0 rfl

/-! ## C4: cancellation -/

/-- Executor segments never change the cancellation flag. -/
theorem stepSeg_cancelled (s : MState) : (stepSeg s).cancelled = s.cancelled := by
  unfold stepSeg
  split
  · rfl
  · split <;> rfl
  · rfl
  · rfl
  · rfl
  · split <;> rfl

/-- The cancel handler never changes the remaining program. -/
theorem cancelStep_prog (s : MState) : (cancelStep s).prog = s.prog := by
  unfold cancelStep
  split <;> rfl

/-- The cancel handler never changes the move log. -/
theorem cancelStep_moves (s : MState) : (cancelStep s).moves = s.moves := by
  unfold cancelStep
  split <;> rfl

/-- Once set, the cancellation flag survives every event. -/
theorem runEv_cancelled (s : MState) (e : Ev) (h : s.cancelled = true) :
    (runEv s e).cancelled = true := by
  cases e
  · rw [runEv, stepSeg_cancelled]
    exact h
  · rw [runEv]
    unfold cancelStep
    split
    · exact h
    · rfl

/-- Each event takes the remaining program to a suffix of itself. -/
theorem runEv_prog_suffix (s : MState) (e : Ev) : (runEv s e).prog <:+ s.prog := by
  cases e
  · rw [runEv]
    unfold stepSeg
    split
    · exact List.suffix_refl _
    · rename_i rest heq
      split
      · exact List.nil_suffix
      · rw [heq]
        exact List.suffix_cons _ _
    · rename_i t rest heq
      rw [heq]
      exact List.suffix_cons _ _
    · rename_i rest heq
      rw [heq]
      exact List.suffix_cons _ _
    · rename_i rest heq
      rw [heq]
      exact List.suffix_cons _ _
    · split
      · exact List.nil_suffix
      · exact List.nil_suffix
  · rw [runEv, cancelStep_prog]

/-- Over any event sequence the remaining program stays a suffix of the
starting program. -/
theorem runEvents_prog_suffix : ∀ (evs : List Ev) (s : MState),
    (runEvents s evs).prog <:+ s.prog := by
  intro evs
  induction evs with
  | nil => intro s; exact List.suffix_refl _
  | cons e evs ih =>
      intro s
      exact (ih (runEv s e)).trans (runEv_prog_suffix s e)

/-- After cancellation, the number of further Move to top invocations is
bounded by the move segments left before the next cancellation
observation point. -/
theorem runEvents_moves_bound : ∀ (evs : List Ev) (s : MState), s.cancelled = true →
    (runEvents s evs).moves.length ≤ s.moves.length + movesBeforeCheck s.prog := by
  intro evs
  induction evs with
  | nil =>
      intro s h
      simp [runEvents]
  | cons e evs ih =>
      intro s h
      have hstep : runEvents s (e :: evs) = runEvents (runEv s e) evs := rfl
      rw [hstep]
      have hc := runEv_cancelled s e h
      have hb := ih (runEv s e) hc
      cases e with
      | cancel =>
          rw [runEv] at hb
          rw [cancelStep_moves, cancelStep_prog] at hb
          exact hb
      | exec =>
          rw [runEv] at hb ⊢
          revert hb
          unfold stepSeg
          split
          · intro hb; exact hb
          · rename_i rest heq
            rw [if_pos h]
            intro hb
            simp only [movesBeforeCheck] at hb ⊢
            rw [heq]
            simpa [movesBeforeCheck] using hb
          · rename_i t rest heq
            intro hb
            rw [heq]
            simp only [movesBeforeCheck, List.length_append, List.length_cons,
              List.length_nil] at hb ⊢
            omega
          · rename_i rest heq
            intro hb
            rw [heq]
            simpa [movesBeforeCheck] using hb
          · rename_i rest heq
            intro hb
            rw [heq]
            simpa [movesBeforeCheck] using hb
          · rename_i rest heq
            rw [if_pos h]
            intro hb
            rw [heq]
            simpa [movesBeforeCheck] using hb

/-- Head of the block program: it always begins with a check segment or
the fin segment, so no move segment precedes the first observation
point. -/
theorem movesBeforeCheck_blocks (bs : List String) :
    movesBeforeCheck ((bs.map iterBlock).flatten ++ [Seg.fin]) = 0 := by
  cases bs with
  | nil => rfl
  | cons b bs => rfl

/-- Every suffix of the executor program has at most one move segment
before the next observation point. -/
theorem execProg_suffix_mbc : ∀ (bs : List String) (q : List Seg),
    q <:+ (bs.map iterBlock).flatten ++ [Seg.fin] → movesBeforeCheck q ≤ 1 := by
  intro bs
  induction bs with
  | nil =>
      intro q hq
      simp only [List.map_nil, List.flatten_nil, List.nil_append] at hq
      rcases List.suffix_cons_iff.mp hq with h1 | h2
      · simp [h1, movesBeforeCheck]
      · rw [List.suffix_nil.mp h2]
        simp [movesBeforeCheck]
  | cons b bs ih =>
      intro q hq
      have hshape : ((b :: bs).map iterBlock).flatten ++ [Seg.fin] =
          Seg.check :: Seg.move b :: Seg.wait :: Seg.post ::
            ((bs.map iterBlock).flatten ++ [Seg.fin]) := by
        simp [iterBlock]
      rw [hshape] at hq
      rcases List.suffix_cons_iff.mp hq with h1 | hq
      · simp [h1, movesBeforeCheck]
      rcases List.suffix_cons_iff.mp hq with h2 | hq
      · rw [h2]
        simp [movesBeforeCheck, movesBeforeCheck_blocks bs]
      rcases List.suffix_cons_iff.mp hq with h3 | hq
      · rw [h3]
        simp [movesBeforeCheck, movesBeforeCheck_blocks bs]
      rcases List.suffix_cons_iff.mp hq with h4 | hq
      · rw [h4]
        simp [movesBeforeCheck, movesBeforeCheck_blocks bs]
      · exact ih q hq

/-- In every state the executor can reach, at most one move segment
precedes the next observation point. -/
theorem reachable_prog_mbc (plan dom : List String) (pre : List Ev) :
    movesBeforeCheck (runEvents (initMState plan dom) pre).prog ≤ 1 := by
  have hsuf : (runEvents (initMState plan dom) pre).prog <:+ execProg plan :=
    runEvents_prog_suffix pre (initMState plan dom)
  exact execProg_suffix_mbc plan.reverse _ (by simpa [execProg] using hsuf)

/-- C4 (amended): when a cancel request arrives while the executor is
still running, the cancel handler immediately sets the shared status
record to idle, and however the interleaving continues, at most one
further Move to top invocation occurs (the one already in flight between
the last cancellation check and its menu click); no later iteration
starts. -/
theorem c4_cancel_stops_executor (plan dom : List String) (pre evs : List Ev)
    (hrun : (runEvents (initMState plan dom) pre).prog ≠ []) :
    (cancelStep (runEvents (initMState plan dom) pre)).stState = "idle" ∧
    (runEvents (cancelStep (runEvents (initMState plan dom) pre)) evs).moves.length ≤
      (runEvents (initMState plan dom) pre).moves.length + 1 := by
  have hne : ¬ (runEvents (initMState plan dom) pre).prog.isEmpty = true := by
    simpa [List.isEmpty_iff] using hrun
  have hcs : cancelStep (runEvents (initMState plan dom) pre) =
      { runEvents (initMState plan dom) pre with cancelled := true, stState := "idle" } := by
    unfold cancelStep
    rw [if_neg hne]
  constructor
  · rw [hcs]
  · have hc : (cancelStep (runEvents (initMState plan dom) pre)).cancelled = true := by
      rw [hcs]
    have hb := runEvents_moves_bound evs (cancelStep (runEvents (initMState plan dom) pre)) hc
    rw [cancelStep_moves, cancelStep_prog] at hb
    have hgood := reachable_prog_mbc plan dom pre
    omega

/-- C4 witness: with the one-item plan a over the DOM a and no events yet
run, the executor is in progress, the cancel handler writes idle, and at
most one further move can happen. -/
theorem c4_cancel_stops_executor_witness :
    (cancelStep (runEvents (initMState ["a"] ["a"]) [])).stState = "idle" ∧
    (runEvents (cancelStep (runEvents (initMState ["a"] ["a"]) [])) []).moves.length ≤
      (runEvents (initMState ["a"] ["a"]) []).moves.length + 1 :=
  c4_cancel_stops_executor ["a"] ["a"] [] [] (by decide)

/-- C4 counterexample: the claim as stated says no Move to top invocation
happens after a cancel arrives.  Run the executor for one segment (the
cancellation check and menu-button click of the first iteration), let the
cancel message arrive during the menu-open await, then let the executor
resume: the pending menu click still performs a move, so a move does
happen after the cancel request arrived while the operation was in
progress. -/
theorem c4_counterexample :
    (runEvents (initMState ["a", "b"] ["b", "a"]) [Ev.exec]).prog ≠ [] ∧
    (runEvents (initMState ["a", "b"] ["b", "a"]) [Ev.exec, Ev.cancel]).cancelled = true ∧
    (runEvents (initMState ["a", "b"] ["b", "a"]) [Ev.exec, Ev.cancel]).stState = "idle" ∧
    (runEvents (initMState ["a", "b"] ["b", "a"]) [Ev.exec, Ev.cancel]).moves = [] ∧
    (runEvents (initMState ["a", "b"] ["b", "a"]) [Ev.exec, Ev.cancel, Ev.exec]).moves
      = ["b"] := by
  decide
